import Mathlib

/-!
Verification development for the CID-10 consolidation ETL (`etl_cid10.py`).

Strings are modelled as lists of Unicode code points (`PyStr := List Nat`),
missing values (pandas `NaN` / Python `None`) as `Option`.  Each definition
below is a direct translation of the corresponding Python function or
pipeline fragment; theorems at the end of the file settle the frozen claims.
-/

namespace EtlCid10

/-- A Python string, as its list of Unicode code points. -/
abbrev PyStr := List Nat

/-- Convenience: build a `PyStr` from a Lean string literal. -/
def pystr (s : String) : PyStr := s.data.map Char.toNat

/-- Whitespace test used by Python's `str.strip` (ASCII whitespace). -/
def isSpace (n : Nat) : Bool :=
  n == 32 || n == 9 || n == 10 || n == 13 || n == 11 || n == 12

/-- One character of Python's `str.upper` (ASCII case mapping). -/
def upChar (n : Nat) : Nat := if 97 ≤ n ∧ n ≤ 122 then n - 32 else n

/-- Left strip: Python `str.lstrip()`. -/
def lstrip (s : PyStr) : PyStr := s.dropWhile isSpace

/-- Right strip: Python `str.rstrip()`. -/
def rstrip (s : PyStr) : PyStr := (s.reverse.dropWhile isSpace).reverse

/-- Python `str.strip()`: remove leading and trailing whitespace. -/
def pyStrip (s : PyStr) : PyStr := rstrip (lstrip s)

/-- Python `str.upper()`. -/
def pyUpper (s : PyStr) : PyStr := s.map upChar

/-- `normalize_code` (etl_cid10.py lines 11-14): `None` for missing input,
otherwise `str(code).strip().upper()`. -/
def normalize_code : Option PyStr → Option PyStr
  | none => none
  | some s => some (pyUpper (pyStrip s))

/-- `extract_root_category` (lines 17-21): `None` stays `None`; otherwise
normalize and take the part before the first `"."` (`split(".")[0]`). -/
def extract_root_category : Option PyStr → Option PyStr
  | none => none
  | some s => some ((pyUpper (pyStrip s)).takeWhile (fun c => c ≠ 46))

/-- The lambda at lines 80/129: keep the code as subcategory only when it is
truthy and contains a `"."`. -/
def subcatField : Option PyStr → Option PyStr
  | none => none
  | some s => if s ≠ [] ∧ 46 ∈ s then some s else none

/-- Python string indexing `s[i]` (defaulting to code point 0 out of
range; all uses below are guarded by a length test, as in the source). -/
def charAt (s : PyStr) (i : Nat) : Nat := s.getD i 0

/-- `_format_subcat` (lines 249-258), translated clause by clause: the input
is stripped and uppercased, then the dotted rendering is produced when the
string has at least 4 characters, the (always true) `s[3] != ''` test passes
and the 4th character does not strip to the empty string. -/
def _format_subcat : Option PyStr → Option PyStr
  | none => none
  | some sc =>
    let s := pyUpper (pyStrip sc)
    some (if 4 ≤ s.length ∧ [charAt s 3] ≠ ([] : PyStr) then
            (if pyStrip [charAt s 3] ≠ [] then s.take 3 ++ 46 :: s.drop 3
             else s.take 3)
          else s.take 3)

/-- Modelled from the spec's words (§4.3 / claim C4): the formatting rule
read literally on the given characters — first 3 characters plus `"."` plus
the remainder from index 3 when there are at least 4 characters and the
character at index 3 is non-blank, else just the first 3 characters. -/
def format_subcat_spec (raw : PyStr) : PyStr :=
  if 4 ≤ raw.length ∧ ¬ isSpace (charAt raw 3) then
    raw.take 3 ++ 46 :: raw.drop 3
  else raw.take 3

/-- Python string `<=`: lexicographic comparison of code points. -/
def strLE : PyStr → PyStr → Bool
  | [], _ => true
  | _ :: _, [] => false
  | a :: s, b :: t => if a < b then true else if b < a then false else strLE s t

/-- `_belongs_to_range` (lines 268-269): `start <= code3 <= end`. -/
def _belongs_to_range (code3 start stop : PyStr) : Bool :=
  strLE start code3 && strLE code3 stop

/-- `f"{start}-{end}"`: the synthesized block / chapter identifier. -/
def formatRange (start stop : PyStr) : PyStr := start ++ 45 :: stop

/-- One step of building a Python `dict`: assigning `d[k] = v` keeps the
key's original position when it is already present (overwriting the value)
and appends at the end otherwise. -/
def dictInsert [DecidableEq K] (k : K) (v : V) : List (K × V) → List (K × V)
  | [] => [(k, v)]
  | e :: rest => if e.1 = k then (k, v) :: rest else e :: dictInsert k v rest

/-- A Python `dict` built by inserting the pairs of a list in order (as the
source does for `block_map` / `chapter_map`, lines 282-294). -/
def dictOfList [DecidableEq K] (l : List (K × V)) : List (K × V) :=
  l.foldl (fun d kv => dictInsert kv.1 kv.2 d) []

/-- The range-matching scan of the source (lines 300-310 and 318-324): build
the dict keyed by `(start, end)`, then return the stored payload of the first
entry whose range contains `code3`, if any. -/
def find_range (code3 : PyStr) (ranges : List (PyStr × PyStr × V)) : Option V :=
  ((dictOfList (ranges.map fun r => ((r.1, r.2.1), r.2.2))).find?
      fun kv => _belongs_to_range code3 kv.1.1 kv.1.2).map (·.2)

/-- The payload stored in `chapter_map` (lines 289-294) for input entry
`((start, end), title)`: the synthesized `chapter_code` plus the title. -/
def chapterPayload (r : (PyStr × PyStr) × PyStr) : (PyStr × PyStr) × (PyStr × PyStr) :=
  (r.1, (formatRange r.1.1 r.1.2, r.2))

/-- The block → chapter inference loop (lines 317-325): for each block range,
the `chapter_code` of the first `chapter_map` entry containing either the
block's start or its end endpoint. -/
def inferBlockChapters (block_ranges : List (PyStr × PyStr))
    (chapters : List ((PyStr × PyStr) × PyStr)) : List (Option PyStr) :=
  block_ranges.map fun be =>
    ((dictOfList (chapters.map chapterPayload)).find?
        fun kv => _belongs_to_range be.1 kv.1.1 kv.1.2 ||
                  _belongs_to_range be.2 kv.1.1 kv.1.2).map (·.2.1)

/-- First-occurrence subsequence of a list of keys relative to an initial
`seen` set: the key order of a Python dict built by repeated insertion. -/
def newKeys [DecidableEq K] : List K → List K → List K
  | [], _ => []
  | k :: rest, seen =>
    if k ∈ seen then newKeys rest seen else k :: newKeys rest (k :: seen)

/-- A row of the structured `chapters` table. -/
structure ChapterRow where
  chapter_code : Option PyStr
  chapter_title : Option PyStr
deriving DecidableEq

/-- A row of the structured `blocks` table. -/
structure BlockRow where
  block_id : Option PyStr
  block_title : Option PyStr
  chapter_code : Option PyStr
deriving DecidableEq

/-- A row of the structured `categories` table. -/
structure CategoryRow where
  category_code : Option PyStr
  category_title : Option PyStr
  block_id : Option PyStr
  chapter_code : Option PyStr
deriving DecidableEq

/-- A row of the structured `subcategories` table. -/
structure SubcatRow where
  subcategory_code : Option PyStr
  subcategory_title : Option PyStr
  category_code : Option PyStr
deriving DecidableEq

/-- A category row after `categories.merge(chapters, on="chapter_code")`. -/
structure Cat1 where
  category_code : Option PyStr
  category_title : Option PyStr
  block_id : Option PyStr
  chapter_code : Option PyStr
  chapter_title : Option PyStr
deriving DecidableEq

/-- A category row after the further `merge(blocks, on="block_id")`: the
`chapter_code` column of both sides survives with `_x` / `_y` suffixes. -/
structure Cat2 where
  category_code : Option PyStr
  category_title : Option PyStr
  block_id : Option PyStr
  chapter_code_x : Option PyStr
  chapter_title : Option PyStr
  chapter_code_y : Option PyStr
  block_title : Option PyStr
deriving DecidableEq

/-- A fully reconciled category row (the ancestry map both expanders join
against). -/
structure CatFull where
  category_code : Option PyStr
  category_title : Option PyStr
  block_id : Option PyStr
  chapter_code : Option PyStr
  chapter_title : Option PyStr
  block_title : Option PyStr
deriving DecidableEq

/-- A raw official (DATASUS) row after column detection: a code and a
description. -/
structure DatasusRaw where
  cid_codigo : Option PyStr
  descricao : Option PyStr
deriving DecidableEq

/-- An output row of either expander (the columns selected at lines 97-101
and 151-155). -/
structure Row where
  cid_codigo : Option PyStr
  cid_categoria : Option PyStr
  cid_subcategoria : Option PyStr
  titulo : Option PyStr
  descricao : Option PyStr
  capitulo_codigo : Option PyStr
  capitulo_titulo : Option PyStr
  bloco_codigo : Option PyStr
  bloco_titulo : Option PyStr
  fonte : PyStr
deriving DecidableEq

/-- `categories.merge(chapters, on="chapter_code", how="left")` (line 55):
every category row is kept; matching chapter rows contribute their title,
an unmatched category gets a null title. -/
def mergeCatsChapters (categories : List CategoryRow) (chapters : List ChapterRow) :
    List Cat1 :=
  categories.flatMap fun c =>
    let ms := chapters.filter fun ch => ch.chapter_code == c.chapter_code
    if ms.isEmpty then
      [⟨c.category_code, c.category_title, c.block_id, c.chapter_code, none⟩]
    else
      ms.map fun ch =>
        ⟨c.category_code, c.category_title, c.block_id, c.chapter_code, ch.chapter_title⟩

/-- `cats.merge(blocks, on="block_id", how="left")` (line 57): the shared
non-key column `chapter_code` is suffixed `_x` (category side) / `_y`
(block side). -/
def mergeCatsBlocks (cats : List Cat1) (blocks : List BlockRow) : List Cat2 :=
  cats.flatMap fun c =>
    let ms := blocks.filter fun b => b.block_id == c.block_id
    if ms.isEmpty then
      [⟨c.category_code, c.category_title, c.block_id, c.chapter_code,
        c.chapter_title, none, none⟩]
    else
      ms.map fun b =>
        ⟨c.category_code, c.category_title, c.block_id, c.chapter_code,
          c.chapter_title, b.chapter_code, b.block_title⟩

/-- `fillna`: keep the first value when present, else fall back to the
second. -/
def fillna (x y : Option PyStr) : Option PyStr :=
  match x with
  | some v => some v
  | none => y

/-- The suffix reconciliation at lines 59-67: `chapter_code` is the category
side value with the block side value as fallback. -/
def reconcileCat (c : Cat2) : CatFull :=
  ⟨c.category_code, c.category_title, c.block_id,
    fillna c.chapter_code_x c.chapter_code_y, c.chapter_title, c.block_title⟩

/-- The reconciled category table used by `build_structured` (lines 55-67). -/
def structuredCats (chapters : List ChapterRow) (blocks : List BlockRow)
    (categories : List CategoryRow) : List CatFull :=
  (mergeCatsBlocks (mergeCatsChapters categories chapters) blocks).map reconcileCat

/-- The output row built for a subcategory and its (optional) joined
category row (lines 78-94). -/
def structuredRow (sc : SubcatRow) (c : Option CatFull) : Row :=
  let cid := normalize_code sc.subcategory_code
  { cid_codigo := cid
    cid_categoria := normalize_code sc.category_code
    cid_subcategoria := subcatField cid
    titulo := sc.subcategory_title
    descricao := sc.subcategory_title
    capitulo_codigo := c.bind (·.chapter_code)
    capitulo_titulo := c.bind (·.chapter_title)
    bloco_codigo := c.bind (·.block_id)
    bloco_titulo := c.bind (·.block_title)
    fonte := pystr "Estruturada" }

/-- `build_structured` (lines 52-101): reconcile the category ancestry, then
left-join every subcategory against it and shape the output columns. -/
def build_structured (chapters : List ChapterRow) (blocks : List BlockRow)
    (categories : List CategoryRow) (subcats : List SubcatRow) : List Row :=
  let cats := structuredCats chapters blocks categories
  subcats.flatMap fun sc =>
    let ms := cats.filter fun c => c.category_code == sc.category_code
    if ms.isEmpty then [structuredRow sc none]
    else ms.map fun c => structuredRow sc (some c)

/-- The output row built for an official raw row and its (optional) joined
category row (lines 127-148). -/
def datasusRow (r : DatasusRaw) (c : Option CatFull) : Row :=
  let cid := normalize_code r.cid_codigo
  { cid_codigo := cid
    cid_categoria := extract_root_category cid
    cid_subcategoria := subcatField cid
    titulo := r.descricao
    descricao := r.descricao
    capitulo_codigo := c.bind (·.chapter_code)
    capitulo_titulo := c.bind (·.chapter_title)
    bloco_codigo := c.bind (·.block_id)
    bloco_titulo := c.bind (·.block_title)
    fonte := pystr "DATASUS" }

/-- `prepare_datasus` (lines 108-155): normalize the code, derive the root
category, and left-join against the normalized category map. -/
def prepare_datasus (raw : List DatasusRaw) (cats : List CatFull) : List Row :=
  let cats_norm := cats.map fun c => { c with category_code := normalize_code c.category_code }
  raw.flatMap fun r =>
    let categoria := extract_root_category (normalize_code r.cid_codigo)
    let ms := cats_norm.filter fun c => c.category_code == categoria
    if ms.isEmpty then [datasusRow r none]
    else ms.map fun c => datasusRow r (some c)

/-- The defensive re-normalization of the code column (lines 180 / 358). -/
def renorm (r : Row) : Row := { r with cid_codigo := normalize_code r.cid_codigo }

/-- The ordering used by `sort_values("fonte", ascending=False)`: a row
comes first when its `fonte` is lexicographically greater or equal. -/
def fonteDesc (a b : Row) : Prop := strLE b.fonte a.fonte = true

instance : DecidableRel fonteDesc := fun a b =>
  inferInstanceAs (Decidable (strLE b.fonte a.fonte = true))

/-- `drop_duplicates(subset=["cid_codigo"], keep="first")` (lines 184 / 361):
keep a row only when its code key was not seen before (pandas treats null
keys as equal to each other). -/
def dropDupFirst : List Row → List (Option PyStr) → List Row
  | [], _ => []
  | r :: rest, seen =>
    if r.cid_codigo ∈ seen then dropDupFirst rest seen
    else r :: dropDupFirst rest (r.cid_codigo :: seen)

/-- The consolidation step shared by `run_etl` (lines 179-184) and
`run_etl_from_datasus_dir` (lines 357-361): concatenate, re-normalize the
code, sort by `fonte` descending, drop duplicate codes keeping the first. -/
def consolidate (structured datasus : List Row) : List Row :=
  dropDupFirst (List.insertionSort fonteDesc ((structured ++ datasus).map renorm)) []

/-- Sample Structured-tagged row: code `"A00"`, null ancestry. -/
def rowS : Row :=
  ⟨some (pystr "A00"), some (pystr "A00"), none, some (pystr "Colera"),
    some (pystr "Colera"), none, none, none, none, pystr "Estruturada"⟩

/-- Sample Official-tagged row: same code up to normalization (`"a00 "`),
fully populated ancestry. -/
def rowO : Row :=
  ⟨some (pystr "a00 "), some (pystr "A00"), none, some (pystr "Colera of."),
    some (pystr "Colera of."), some (pystr "A00-B99"), some (pystr "Cap 1"),
    some (pystr "A00-A09"), some (pystr "Bloco 1"), pystr "DATASUS"⟩

/-- Sample row whose code is null. -/
def rowNull : Row :=
  ⟨none, none, none, none, none, none, none, none, none, pystr "Estruturada"⟩

/-- Sample subcategory row. -/
def sc0 : SubcatRow := ⟨some (pystr "A000"), some (pystr "Colera"), some (pystr "A00")⟩

/-- Sample official raw row. -/
def raw0 : DatasusRaw := ⟨some (pystr "A00.0"), some (pystr "Colera")⟩

end EtlCid10

namespace EtlCid10

theorem pystr_test : pystr "A00" = [65, 48, 48] := by decide

theorem isSpace_upChar (n : Nat) : isSpace (upChar n) = isSpace n := by
  unfold upChar
  split
  · rename_i h
    have hl : isSpace (n - 32) = false := by
      simp only [isSpace, Bool.or_eq_false_iff, beq_eq_false_iff_ne, ne_eq]
      omega
    have hr : isSpace n = false := by
      simp only [isSpace, Bool.or_eq_false_iff, beq_eq_false_iff_ne, ne_eq]
      omega
    rw [hl, hr]
  · rfl

theorem upChar_idem (n : Nat) : upChar (upChar n) = upChar n := by
  by_cases h : 97 ≤ n ∧ n ≤ 122
  · have h2 : ¬(97 ≤ n - 32 ∧ n - 32 ≤ 122) := by omega
    simp [upChar, h, h2]
    omega
  · simp [upChar, h]

theorem dropWhile_idem (p : Nat → Bool) (l : PyStr) :
    (l.dropWhile p).dropWhile p = l.dropWhile p := by
  induction l with
  | nil => rfl
  | cons a t ih =>
    by_cases h : p a = true
    · simp [List.dropWhile_cons, h, ih]
    · simp [List.dropWhile_cons, h]

theorem head_lstrip (s : PyStr) (a : Nat) (h : (lstrip s).head? = some a) :
    isSpace a = false := by
  induction s with
  | nil => simp [lstrip] at h
  | cons b t ih =>
    cases hb : isSpace b
    · rw [lstrip, List.dropWhile_cons, hb] at h
      simp at h
      exact h ▸ hb
    · rw [lstrip, List.dropWhile_cons, hb] at h
      exact ih (by simpa [lstrip] using h)

theorem lstrip_eq_self (s : PyStr) (h : ∀ a, s.head? = some a → isSpace a = false) :
    lstrip s = s := by
  cases s with
  | nil => rfl
  | cons a t => simp [lstrip, List.dropWhile_cons, h a rfl]

theorem rstrip_prefixOf (s : PyStr) : rstrip s <+: s := by
  rw [← List.reverse_suffix]
  simp only [rstrip, List.reverse_reverse]
  exact List.dropWhile_suffix _

theorem head?_prefixOf {l₁ l₂ : PyStr} (h : l₁ <+: l₂) (hne : l₁ ≠ []) :
    l₂.head? = l₁.head? := by
  obtain ⟨ts, rfl⟩ := h
  cases l₁ with
  | nil => exact absurd rfl hne
  | cons a t => simp

theorem rstrip_idem (s : PyStr) : rstrip (rstrip s) = rstrip s := by
  simp [rstrip, List.reverse_reverse, dropWhile_idem]

theorem lstrip_idem (s : PyStr) : lstrip (lstrip s) = lstrip s :=
  dropWhile_idem _ _

theorem pyStrip_idem (s : PyStr) : pyStrip (pyStrip s) = pyStrip s := by
  unfold pyStrip
  have h1 : lstrip (rstrip (lstrip s)) = rstrip (lstrip s) := by
    apply lstrip_eq_self
    intro a ha
    have hne : rstrip (lstrip s) ≠ [] := by
      intro he
      rw [he] at ha
      simp at ha
    have hp : (lstrip s).head? = (rstrip (lstrip s)).head? :=
      head?_prefixOf (rstrip_prefixOf _) hne
    exact head_lstrip s a (by rw [hp]; exact ha)
  rw [h1, rstrip_idem]

theorem isSpace_comp_upChar : (isSpace ∘ upChar) = isSpace :=
  funext isSpace_upChar

theorem lstrip_upper (s : PyStr) : lstrip (pyUpper s) = pyUpper (lstrip s) := by
  unfold lstrip pyUpper
  rw [List.dropWhile_map, isSpace_comp_upChar]

theorem rstrip_upper (s : PyStr) : rstrip (pyUpper s) = pyUpper (rstrip s) := by
  unfold rstrip pyUpper
  rw [← List.map_reverse, List.dropWhile_map, isSpace_comp_upChar, List.map_reverse]

theorem pyStrip_upper (s : PyStr) : pyStrip (pyUpper s) = pyUpper (pyStrip s) := by
  unfold pyStrip
  rw [lstrip_upper, rstrip_upper]

theorem pyUpper_idem (s : PyStr) : pyUpper (pyUpper s) = pyUpper s := by
  unfold pyUpper
  rw [List.map_map]
  exact List.map_congr_left fun a _ => upChar_idem a

theorem strLE_refl (s : PyStr) : strLE s s = true := by
  induction s with
  | nil => rfl
  | cons a t ih => simp [strLE, ih]

section Dict

variable {K : Type} [DecidableEq K] {V W : Type}

theorem mem_dictInsert {k : K} {v : V} : ∀ {d : List (K × V)} {x : K × V},
    x ∈ dictInsert k v d → x = (k, v) ∨ x ∈ d
  | [], x, h => by simpa [dictInsert] using h
  | e :: rest, x, h => by
    rw [dictInsert] at h
    split at h
    · rcases List.mem_cons.mp h with h1 | h1
      · exact Or.inl h1
      · exact Or.inr (List.mem_cons_of_mem _ h1)
    · rcases List.mem_cons.mp h with h1 | h1
      · exact Or.inr (h1 ▸ List.mem_cons_self _ _)
      · rcases mem_dictInsert h1 with h2 | h2
        · exact Or.inl h2
        · exact Or.inr (List.mem_cons_of_mem _ h2)

theorem mem_dfold {l : List (K × V)} :
    ∀ {acc : List (K × V)} {x : K × V},
      x ∈ l.foldl (fun d kv => dictInsert kv.1 kv.2 d) acc → x ∈ acc ∨ x ∈ l := by
  induction l with
  | nil => exact fun h => Or.inl h
  | cons kv rest ih =>
    intro acc x h
    simp only [List.foldl_cons] at h
    rcases ih h with h1 | h1
    · rcases mem_dictInsert h1 with h2 | h2
      · right
        rw [h2]
        exact List.mem_cons_self _ _
      · exact Or.inl h2
    · exact Or.inr (List.mem_cons_of_mem _ h1)

theorem newKeys_seen_congr : ∀ (l s₁ s₂ : List K), (∀ x, x ∈ s₁ ↔ x ∈ s₂) →
    newKeys l s₁ = newKeys l s₂
  | [], _, _, _ => rfl
  | k :: rest, s₁, s₂, h => by
    by_cases hk : k ∈ s₁
    · rw [newKeys, if_pos hk, newKeys, if_pos ((h k).mp hk),
        newKeys_seen_congr rest s₁ s₂ h]
    · rw [newKeys, if_neg hk, newKeys, if_neg (fun hx => hk ((h k).mpr hx)),
        newKeys_seen_congr rest (k :: s₁) (k :: s₂)
          (by intro x; simp [List.mem_cons, h x])]

theorem newKeys_find? (p : K → Bool) : ∀ (l seen : List K),
    (∀ s ∈ seen, p s = false) → (newKeys l seen).find? p = l.find? p
  | [], _, _ => rfl
  | k :: rest, seen, h => by
    by_cases hk : k ∈ seen
    · rw [newKeys, if_pos hk, newKeys_find? p rest seen h,
        List.find?_cons_of_neg _ (by simp [h k hk])]
    · rw [newKeys, if_neg hk]
      cases hp : p k
      · rw [List.find?_cons_of_neg _ (by simp [hp]), List.find?_cons_of_neg _ (by simp [hp]),
          newKeys_find? p rest (k :: seen)
            (by intro s hs
                rcases List.mem_cons.mp hs with h1 | h1
                · exact h1 ▸ hp
                · exact h s h1)]
      · rw [List.find?_cons_of_pos _ hp, List.find?_cons_of_pos _ hp]

theorem dictInsert_keyed (g : K → W) (k : K) (D : List K) :
    dictInsert k (g k) (D.map fun j => (j, g j)) =
      (if k ∈ D then D else D ++ [k]).map fun j => (j, g j) := by
  induction D with
  | nil => simp [dictInsert]
  | cons d rest ih =>
    simp only [List.map_cons, dictInsert]
    by_cases hd : d = k
    · rw [if_pos hd]
      subst hd
      simp [List.mem_cons]
    · rw [if_neg hd, ih]
      have hkd : ¬ k = d := fun h => hd h.symm
      by_cases hk : k ∈ rest
      · simp [List.mem_cons, hk, hkd]
      · simp [List.mem_cons, hk, hkd]

theorem dfold_keyed (g : K → W) : ∀ (l D : List K),
    (l.map fun j => (j, g j)).foldl (fun d kv => dictInsert kv.1 kv.2 d)
        (D.map fun j => (j, g j))
      = ((D ++ newKeys l D).map fun j => (j, g j))
  | [], D => by simp [newKeys]
  | k :: rest, D => by
    simp only [List.map_cons, List.foldl_cons]
    rw [show dictInsert (k, g k).1 (k, g k).2 (D.map fun j => (j, g j))
          = dictInsert k (g k) (D.map fun j => (j, g j)) from rfl,
      dictInsert_keyed]
    by_cases hk : k ∈ D
    · rw [if_pos hk, dfold_keyed g rest D, newKeys, if_pos hk]
    · rw [if_neg hk, dfold_keyed g rest (D ++ [k]), newKeys, if_neg hk,
        newKeys_seen_congr rest (D ++ [k]) (k :: D)
          (by intro x; simp [List.mem_append, List.mem_cons, or_comm])]
      simp

theorem dictInsert_map_erase (g : K → W) (k : K) (v : V) (d : List (K × V)) :
    (dictInsert k v d).map (fun kv => (kv.1, g kv.1)) =
      dictInsert k (g k) (d.map fun kv => (kv.1, g kv.1)) := by
  induction d with
  | nil => rfl
  | cons e rest ih =>
    simp only [dictInsert, List.map_cons]
    by_cases he : e.1 = k
    · rw [if_pos he, if_pos (show (e.1, g e.1).1 = k from he)]
      simp [he]
    · rw [if_neg he, if_neg (show ¬(e.1, g e.1).1 = k from he)]
      simp only [List.map_cons, ih]

theorem dfold_map_erase (g : K → W) : ∀ (l acc : List (K × V)),
    (l.foldl (fun d kv => dictInsert kv.1 kv.2 d) acc).map (fun kv => (kv.1, g kv.1))
      = (l.map fun kv => (kv.1, g kv.1)).foldl (fun d kv => dictInsert kv.1 kv.2 d)
          (acc.map fun kv => (kv.1, g kv.1))
  | [], acc => rfl
  | kv :: rest, acc => by
    simp only [List.foldl_cons, List.map_cons]
    rw [dfold_map_erase g rest, dictInsert_map_erase]

theorem dict_find_extract (l : List (K × V)) (p : K → Bool) (e : V → W) (g : K → W)
    (hval : ∀ kv ∈ l, e kv.2 = g kv.1) :
    ((dictOfList l).find? fun kv => p kv.1).map (fun kv => e kv.2)
      = (l.find? fun kv => p kv.1).map (fun kv => g kv.1) := by
  have hmem : ∀ kv ∈ dictOfList l, e kv.2 = g kv.1 := by
    intro kv h
    rcases mem_dfold h with h1 | h1
    · exact absurd h1 (List.not_mem_nil _)
    · exact hval kv h1
  have step1 : ((dictOfList l).find? fun kv => p kv.1).map (fun kv => e kv.2)
      = ((dictOfList l).find? fun kv => p kv.1).map (fun kv => g kv.1) := by
    cases hf : (dictOfList l).find? fun kv => p kv.1 with
    | none => rfl
    | some kv => simp [hmem kv (List.mem_of_find?_eq_some hf)]
  have hdict : (dictOfList l).map (fun kv => (kv.1, g kv.1))
      = (newKeys (l.map Prod.fst) []).map fun j => (j, g j) := by
    calc (dictOfList l).map (fun kv => (kv.1, g kv.1))
        = (l.map fun kv => (kv.1, g kv.1)).foldl (fun d kv => dictInsert kv.1 kv.2 d)
            (([] : List (K × V)).map fun kv => (kv.1, g kv.1)) := dfold_map_erase g l []
      _ = ((l.map Prod.fst).map fun j => (j, g j)).foldl (fun d kv => dictInsert kv.1 kv.2 d)
            ((([] : List K)).map fun j => (j, g j)) := by
            rw [List.map_map]
            try rfl
      _ = ((([] : List K) ++ newKeys (l.map Prod.fst) []).map fun j => (j, g j)) :=
            dfold_keyed g _ _
      _ = (newKeys (l.map Prod.fst) []).map fun j => (j, g j) := by
            rw [List.nil_append]
  calc Option.map (fun kv => e kv.2) (List.find? (fun kv => p kv.1) (dictOfList l))
      = Option.map (fun kv => g kv.1) (List.find? (fun kv => p kv.1) (dictOfList l)) := step1
    _ = Option.map (fun kv : K × W => kv.2)
          (Option.map (fun kv => (kv.1, g kv.1))
            (List.find? (fun kv => p kv.1) (dictOfList l))) := by
          rw [Option.map_map]
          try rfl
    _ = Option.map (fun kv : K × W => kv.2)
          (List.find? (fun kv : K × W => p kv.1)
            ((dictOfList l).map (fun kv => (kv.1, g kv.1)))) := by
          rw [List.find?_map]
          try rfl
    _ = Option.map (fun kv : K × W => kv.2)
          (List.find? (fun kv : K × W => p kv.1)
            ((newKeys (l.map Prod.fst) []).map fun j => (j, g j))) := by rw [hdict]
    _ = Option.map (fun kv : K × W => kv.2)
          (Option.map (fun j => (j, g j))
            (List.find? p (newKeys (l.map Prod.fst) []))) := by
          rw [List.find?_map]
          try rfl
    _ = Option.map g (List.find? p (l.map Prod.fst)) := by
          rw [newKeys_find? p _ [] (fun s hs => absurd hs (List.not_mem_nil _)),
            Option.map_map]
          try rfl
    _ = Option.map (fun kv => g kv.1) (List.find? (fun kv => p kv.1) l) := by
          rw [List.find?_map, Option.map_map]
          try rfl

end Dict

theorem find_range_test1 :
    find_range (pystr "B02") [(pystr "A00", pystr "B99", pystr "Ch1")] = some (pystr "Ch1") := by
  decide

theorem find_range_test2 :
    find_range (pystr "C00") [(pystr "A00", pystr "B99", pystr "Ch1")] = none := by
  decide

theorem find_range_test3 :
    find_range (pystr "A50")
      [(pystr "A00", pystr "B99", (1 : Nat)), (pystr "A00", pystr "B99", 2)] = some 2 := by
  decide

theorem find_range_keyed (code : PyStr) (rs : List (PyStr × PyStr)) :
    find_range code (rs.map fun r => (r.1, r.2, formatRange r.1 r.2))
      = (rs.find? fun r => _belongs_to_range code r.1 r.2).map
          (fun r => formatRange r.1 r.2) := by
  unfold find_range
  rw [List.map_map]
  have h := dict_find_extract (K := PyStr × PyStr) (V := PyStr) (W := PyStr)
      (rs.map fun r => ((r.1, r.2), formatRange r.1 r.2))
      (fun k => _belongs_to_range code k.1 k.2) (fun v => v) (fun k => formatRange k.1 k.2)
      (by
        intro kv hkv
        obtain ⟨r, hr, rfl⟩ := List.mem_map.mp hkv
        rfl)
  have h2 : ((rs.map fun r => ((r.1, r.2), formatRange r.1 r.2)).find?
        (fun kv => _belongs_to_range code kv.1.1 kv.1.2)).map
          (fun kv => formatRange kv.1.1 kv.1.2)
      = (rs.find? fun r => _belongs_to_range code r.1 r.2).map
          (fun r => formatRange r.1 r.2) := by
    rw [List.find?_map, Option.map_map]
    try rfl
  exact h.trans h2

theorem inferBlockChapters_eq (blocks : List (PyStr × PyStr))
    (chapters : List ((PyStr × PyStr) × PyStr)) :
    inferBlockChapters blocks chapters
      = blocks.map fun be =>
          (chapters.find? fun ch => _belongs_to_range be.1 ch.1.1 ch.1.2 ||
              _belongs_to_range be.2 ch.1.1 ch.1.2).map
            (fun ch => formatRange ch.1.1 ch.1.2) := by
  unfold inferBlockChapters
  apply List.map_congr_left
  intro be _
  have h := dict_find_extract (K := PyStr × PyStr) (V := PyStr × PyStr) (W := PyStr)
      (chapters.map chapterPayload)
      (fun k => _belongs_to_range be.1 k.1 k.2 || _belongs_to_range be.2 k.1 k.2)
      (fun v => v.1) (fun k => formatRange k.1 k.2)
      (by
        intro kv hkv
        obtain ⟨ch, hch, rfl⟩ := List.mem_map.mp hkv
        rfl)
  have h2 : ((chapters.map chapterPayload).find?
        (fun kv => _belongs_to_range be.1 kv.1.1 kv.1.2 ||
          _belongs_to_range be.2 kv.1.1 kv.1.2)).map
          (fun kv => formatRange kv.1.1 kv.1.2)
      = (chapters.find? fun ch => _belongs_to_range be.1 ch.1.1 ch.1.2 ||
            _belongs_to_range be.2 ch.1.1 ch.1.2).map
          (fun ch => formatRange ch.1.1 ch.1.2) := by
    rw [List.find?_map, Option.map_map]
    try rfl
  exact h.trans h2

theorem dropDup_mem_find : ∀ (l : List Row) (seen : List (Option PyStr)) (r : Row),
    r ∈ dropDupFirst l seen →
      r.cid_codigo ∉ seen ∧ l.find? (fun x => x.cid_codigo == r.cid_codigo) = some r
  | [], _, r, h => by simp [dropDupFirst] at h
  | a :: rest, seen, r, h => by
    rw [dropDupFirst] at h
    by_cases ha : a.cid_codigo ∈ seen
    · rw [if_pos ha] at h
      obtain ⟨h1, h2⟩ := dropDup_mem_find rest seen r h
      refine ⟨h1, ?_⟩
      rw [List.find?_cons_of_neg _ ?_, h2]
      intro hc
      exact h1 (beq_iff_eq.mp hc ▸ ha)
    · rw [if_neg ha] at h
      rcases List.mem_cons.mp h with h1 | h1
      · subst h1
        exact ⟨ha, List.find?_cons_of_pos _ (beq_self_eq_true _)⟩
      · obtain ⟨h1, h2⟩ := dropDup_mem_find rest (a.cid_codigo :: seen) r h1
        have hne : ¬ a.cid_codigo = r.cid_codigo := by
          intro hc
          exact h1 (by rw [← hc]; exact List.mem_cons_self _ _)
        refine ⟨fun hc => h1 (List.mem_cons_of_mem _ hc), ?_⟩
        rw [List.find?_cons_of_neg _ (by simpa using hne), h2]

theorem find_mem_dropDup : ∀ (l : List Row) (seen : List (Option PyStr))
    (k : Option PyStr) (r : Row),
    l.find? (fun x => x.cid_codigo == k) = some r → k ∉ seen →
      r ∈ dropDupFirst l seen
  | [], _, _, _, h, _ => by simp at h
  | a :: rest, seen, k, r, h, hk => by
    rw [dropDupFirst]
    by_cases hp : a.cid_codigo = k
    · rw [List.find?_cons_of_pos _ (by simpa using hp)] at h
      rw [if_neg (hp ▸ hk)]
      exact (Option.some.injEq _ _ ▸ h) ▸ List.mem_cons_self _ _
    · rw [List.find?_cons_of_neg _ (by simpa using hp)] at h
      by_cases ha : a.cid_codigo ∈ seen
      · rw [if_pos ha]
        exact find_mem_dropDup rest seen k r h hk
      · rw [if_neg ha]
        exact List.mem_cons_of_mem _
          (find_mem_dropDup rest (a.cid_codigo :: seen) k r h
            (by
              intro hc
              rcases List.mem_cons.mp hc with h2 | h2
              · exact hp h2.symm
              · exact hk h2))

theorem dropDup_pairwise : ∀ (l : List Row) (seen : List (Option PyStr)),
    (dropDupFirst l seen).Pairwise (fun a b => a.cid_codigo ≠ b.cid_codigo)
  | [], _ => List.Pairwise.nil
  | a :: rest, seen => by
    rw [dropDupFirst]
    by_cases ha : a.cid_codigo ∈ seen
    · rw [if_pos ha]
      exact dropDup_pairwise rest seen
    · rw [if_neg ha]
      refine List.Pairwise.cons ?_ (dropDup_pairwise rest _)
      intro b hb
      have h1 := (dropDup_mem_find rest (a.cid_codigo :: seen) b hb).1
      intro hc
      exact h1 (hc ▸ List.mem_cons_self _ _)

theorem countP_le_one_of_pairwise (p : Row → Bool) : ∀ (l : List Row),
    l.Pairwise (fun a b => p a = true → p b = false) → l.countP p ≤ 1
  | [], _ => by simp
  | a :: rest, h => by
    rw [List.countP_cons]
    rcases List.pairwise_cons.mp h with ⟨h1, h2⟩
    by_cases hp : p a = true
    · have h0 : rest.countP p = 0 := List.countP_eq_zero.mpr fun b hb => by
        simp [h1 b hb hp]
      simp [h0, hp]
    · have hle := countP_le_one_of_pairwise p rest h2
      simp [hp]
      omega

theorem renorm_fonte (r : Row) : (renorm r).fonte = r.fonte := rfl

theorem consolidate_eq_of_tagged (S O : List Row)
    (hS : ∀ r ∈ S, r.fonte = pystr "Estruturada")
    (hO : ∀ r ∈ O, r.fonte = pystr "DATASUS") :
    consolidate S O = dropDupFirst ((S ++ O).map renorm) [] := by
  unfold consolidate
  congr 1
  apply List.Sorted.insertionSort_eq
  rw [List.map_append]
  apply List.pairwise_append.mpr
  refine ⟨?_, ?_, ?_⟩
  · apply List.pairwise_of_forall_mem_list
    intro a ha b hb
    obtain ⟨a0, ha0, rfl⟩ := List.mem_map.mp ha
    obtain ⟨b0, hb0, rfl⟩ := List.mem_map.mp hb
    show strLE (renorm b0).fonte (renorm a0).fonte = true
    rw [renorm_fonte, renorm_fonte, hS a0 ha0, hS b0 hb0]
    exact strLE_refl _
  · apply List.pairwise_of_forall_mem_list
    intro a ha b hb
    obtain ⟨a0, ha0, rfl⟩ := List.mem_map.mp ha
    obtain ⟨b0, hb0, rfl⟩ := List.mem_map.mp hb
    show strLE (renorm b0).fonte (renorm a0).fonte = true
    rw [renorm_fonte, renorm_fonte, hO a0 ha0, hO b0 hb0]
    exact strLE_refl _
  · intro a ha b hb
    obtain ⟨a0, ha0, rfl⟩ := List.mem_map.mp ha
    obtain ⟨b0, hb0, rfl⟩ := List.mem_map.mp hb
    show strLE (renorm b0).fonte (renorm a0).fonte = true
    rw [renorm_fonte, renorm_fonte, hO b0 hb0, hS a0 ha0]
    decide

theorem dropDup_subset (l : List Row) (seen : List (Option PyStr)) (r : Row)
    (h : r ∈ dropDupFirst l seen) : r ∈ l :=
  List.mem_of_find?_eq_some (dropDup_mem_find l seen r h).2

theorem build_structured_fonte (chapters : List ChapterRow) (blocks : List BlockRow)
    (categories : List CategoryRow) (subcats : List SubcatRow) :
    ∀ r ∈ build_structured chapters blocks categories subcats,
      r.fonte = pystr "Estruturada" := by
  intro r hr
  simp only [build_structured] at hr
  obtain ⟨sc, hsc, hbody⟩ := List.mem_flatMap.mp hr
  split at hbody
  · rw [List.mem_singleton.mp hbody]
    rfl
  · obtain ⟨c, hc, rfl⟩ := List.mem_map.mp hbody
    rfl

theorem prepare_datasus_fonte (raw : List DatasusRaw) (cats : List CatFull) :
    ∀ r ∈ prepare_datasus raw cats, r.fonte = pystr "DATASUS" := by
  intro r hr
  simp only [prepare_datasus] at hr
  obtain ⟨rr, hrr, hbody⟩ := List.mem_flatMap.mp hr
  split at hbody
  · rw [List.mem_singleton.mp hbody]
    rfl
  · obtain ⟨c, hc, rfl⟩ := List.mem_map.mp hbody
    rfl

theorem consolidate_test :
    consolidate
      [{ cid_codigo := some (pystr "A00"), cid_categoria := none, cid_subcategoria := none,
         titulo := none, descricao := none, capitulo_codigo := none, capitulo_titulo := none,
         bloco_codigo := none, bloco_titulo := none, fonte := pystr "Estruturada" }]
      [{ cid_codigo := some (pystr "a00 "), cid_categoria := none, cid_subcategoria := none,
         titulo := some (pystr "x"), descricao := none, capitulo_codigo := none,
         capitulo_titulo := none, bloco_codigo := none, bloco_titulo := none,
         fonte := pystr "DATASUS" }]
    = [{ cid_codigo := some (pystr "A00"), cid_categoria := none, cid_subcategoria := none,
         titulo := none, descricao := none, capitulo_codigo := none, capitulo_titulo := none,
         bloco_codigo := none, bloco_titulo := none, fonte := pystr "Estruturada" }] := by
  decide

theorem infer_test :
    inferBlockChapters [(pystr "B50", pystr "C50")]
      [((pystr "A00", pystr "B99"), pystr "T1"), ((pystr "C00", pystr "D99"), pystr "T2")]
      = [some (pystr "A00-B99")] := by decide

theorem strip_decomposition (s : PyStr) :
    ∃ pre post : PyStr, s = pre ++ pyStrip s ++ post ∧
      pre.all isSpace = true ∧ post.all isSpace = true := by
  refine ⟨s.takeWhile isSpace, ((lstrip s).reverse.takeWhile isSpace).reverse, ?_, ?_, ?_⟩
  · have h2 : lstrip s = pyStrip s ++ ((lstrip s).reverse.takeWhile isSpace).reverse := by
      conv_lhs => rw [← List.reverse_reverse (lstrip s),
        ← List.takeWhile_append_dropWhile (p := isSpace) (l := (lstrip s).reverse)]
      rw [List.reverse_append]
      rfl
    conv_lhs => rw [← List.takeWhile_append_dropWhile (p := isSpace) (l := s)]
    rw [List.append_assoc,
      show s.dropWhile isSpace = pyStrip s ++ ((lstrip s).reverse.takeWhile isSpace).reverse
        from h2]
  · exact List.all_eq_true.mpr fun x hx => List.mem_takeWhile_imp hx
  · exact List.all_eq_true.mpr fun x hx => List.mem_takeWhile_imp (List.mem_reverse.mp hx)

/-- C6: `normalize_code` is idempotent — re-normalizing an already
normalized code is a no-op. -/
theorem normalize_code_idempotent (x : Option PyStr) :
    normalize_code (normalize_code x) = normalize_code x := by
  cases x with
  | none => rfl
  | some s =>
    show some (pyUpper (pyStrip (pyUpper (pyStrip s)))) = some (pyUpper (pyStrip s))
    rw [pyStrip_upper, pyStrip_idem, pyUpper_idem]

/-- C5 counterexample: the empty string is not missing for `pd.isna`, so
`normalize_code` maps it to the empty string, not to null, contradicting
the claim that empty input yields null. -/
theorem normalize_code_empty_not_null :
    normalize_code (some (pystr "")) ≠ none ∧
    normalize_code (some (pystr "")) = some (pystr "") := by decide

/-- C5 (amended): `normalize_code` maps missing input to null and any
present string to its trimmed, uppercased form; in particular the empty
string maps to the empty string, not to null.  The trimming is witnessed by
an explicit decomposition into whitespace margins. -/
theorem normalize_code_spec :
    normalize_code none = none ∧
    normalize_code (some (pystr "")) = some (pystr "") ∧
    ∀ s : PyStr, ∃ pre post : PyStr,
      s = pre ++ pyStrip s ++ post ∧ pre.all isSpace = true ∧ post.all isSpace = true ∧
      normalize_code (some s) = some ((pyStrip s).map upChar) := by
  refine ⟨rfl, by decide, ?_⟩
  intro s
  obtain ⟨pre, post, h1, h2, h3⟩ := strip_decomposition s
  exact ⟨pre, post, h1, h2, h3, rfl⟩

/-- C4 counterexample: the claim's rule read on the raw characters fails —
`_format_subcat` first strips and uppercases, so `"a001"` becomes
`"A00.1"`, while the literal reading of the claim produces `"a00.1"`. -/
theorem format_subcat_raw_counterexample :
    _format_subcat (some (pystr "a001")) = some (pystr "A00.1") ∧
    format_subcat_spec (pystr "a001") = pystr "a00.1" ∧
    pystr "A00.1" ≠ pystr "a00.1" := by decide

/-- C4 (amended): the first-3-plus-dot-plus-rest rule, with degradation to
the bare first 3 characters on a blank 4th character or fewer than 4
characters, holds of the *trimmed and uppercased* raw code (the redundant
`s[3] != ''` test of the source never fires); missing input maps to null,
and the spec's two examples hold. -/
theorem format_subcat_amended :
    (∀ sc : PyStr, _format_subcat (some sc) = some (format_subcat_spec (pyUpper (pyStrip sc)))) ∧
    _format_subcat none = none ∧
    _format_subcat (some (pystr "A001")) = some (pystr "A00.1") ∧
    _format_subcat (some (pystr "A00 ")) = some (pystr "A00") := by
  refine ⟨?_, rfl, by decide, by decide⟩
  intro sc
  simp only [_format_subcat, format_subcat_spec, Option.some.injEq]
  set s := pyUpper (pyStrip sc) with hs
  by_cases h4 : 4 ≤ s.length
  · by_cases hsp : isSpace (charAt s 3) = true
    · have hstrip : pyStrip [charAt s 3] = [] := by
        simp [pyStrip, lstrip, rstrip, List.dropWhile_cons, hsp]
      rw [if_pos ⟨h4, by simp⟩, if_neg (by simp [hstrip]),
        if_neg (fun hcon => hcon.2 hsp)]
    · have hstrip : pyStrip [charAt s 3] = [charAt s 3] := by
        simp [pyStrip, lstrip, rstrip, List.dropWhile_cons, hsp]
      rw [if_pos ⟨h4, by simp⟩, if_pos (by simp [hstrip]), if_pos ⟨h4, hsp⟩]
  · rw [if_neg (fun hcon => h4 hcon.1), if_neg (fun hcon => h4 hcon.1)]

theorem mergeCatsChapters_code (categories : List CategoryRow) (chapters : List ChapterRow) :
    ∀ c1 ∈ mergeCatsChapters categories chapters,
      ∃ c0 ∈ categories, c1.category_code = c0.category_code := by
  intro c1 hc1
  obtain ⟨c0, h0, hbody⟩ := List.mem_flatMap.mp hc1
  refine ⟨c0, h0, ?_⟩
  have hbody' : c1 ∈
      (if (chapters.filter fun ch => ch.chapter_code == c0.chapter_code).isEmpty
       then [⟨c0.category_code, c0.category_title, c0.block_id, c0.chapter_code, none⟩]
       else (chapters.filter fun ch => ch.chapter_code == c0.chapter_code).map fun ch =>
         ⟨c0.category_code, c0.category_title, c0.block_id, c0.chapter_code,
           ch.chapter_title⟩) := hbody
  split at hbody'
  · rw [List.mem_singleton.mp hbody']
  · obtain ⟨ch, _, rfl⟩ := List.mem_map.mp hbody'
    rfl

theorem mergeCatsBlocks_code (cats : List Cat1) (blocks : List BlockRow) :
    ∀ c2 ∈ mergeCatsBlocks cats blocks,
      ∃ c1 ∈ cats, c2.category_code = c1.category_code := by
  intro c2 hc2
  obtain ⟨c1, h1, hbody⟩ := List.mem_flatMap.mp hc2
  refine ⟨c1, h1, ?_⟩
  have hbody' : c2 ∈
      (if (blocks.filter fun b => b.block_id == c1.block_id).isEmpty
       then [⟨c1.category_code, c1.category_title, c1.block_id, c1.chapter_code,
         c1.chapter_title, none, none⟩]
       else (blocks.filter fun b => b.block_id == c1.block_id).map fun b =>
         ⟨c1.category_code, c1.category_title, c1.block_id, c1.chapter_code,
           c1.chapter_title, b.chapter_code, b.block_title⟩) := hbody
  split at hbody'
  · rw [List.mem_singleton.mp hbody']
  · obtain ⟨b, _, rfl⟩ := List.mem_map.mp hbody'
    rfl

theorem structuredCats_codes (chapters : List ChapterRow) (blocks : List BlockRow)
    (categories : List CategoryRow) :
    ∀ c ∈ structuredCats chapters blocks categories,
      ∃ c0 ∈ categories, c.category_code = c0.category_code := by
  intro c hc
  unfold structuredCats at hc
  obtain ⟨c2, hc2, rfl⟩ := List.mem_map.mp hc
  obtain ⟨c1, hc1, h21⟩ := mergeCatsBlocks_code _ _ c2 hc2
  obtain ⟨c0, hc0, h10⟩ := mergeCatsChapters_code _ _ c1 hc1
  exact ⟨c0, hc0, h21.trans h10⟩

/-- C2: the range matcher — the dict-backed scan over `(start, end)` ranges
with payloads synthesized from the endpoints, exactly as the category-to-
block and category-to-chapter inference use it — returns the payload of the
first range in input order containing the code under lexicographic string
comparison, returns null exactly when no range contains it, and the spec's
two concrete examples hold. -/
theorem find_range_first_match :
    (∀ (code : PyStr) (rs : List (PyStr × PyStr)),
      find_range code (rs.map fun r => (r.1, r.2, formatRange r.1 r.2))
        = (rs.find? fun r => _belongs_to_range code r.1 r.2).map
            (fun r => formatRange r.1 r.2)) ∧
    (∀ (code : PyStr) (rs : List (PyStr × PyStr)),
      find_range code (rs.map fun r => (r.1, r.2, formatRange r.1 r.2)) = none ↔
        ∀ r ∈ rs, ¬ _belongs_to_range code r.1 r.2 = true) ∧
    find_range (pystr "B02") [(pystr "A00", pystr "B99", pystr "Ch1")]
      = some (pystr "Ch1") ∧
    find_range (pystr "C00") [(pystr "A00", pystr "B99", pystr "Ch1")] = none := by
  refine ⟨find_range_keyed, ?_, by decide, by decide⟩
  intro code rs
  rw [find_range_keyed]
  simp

/-- C7: each block's enclosing chapter is inferred as the first chapter
range, in input order, containing either the block's start endpoint or its
end endpoint; the concrete conjunct shows a block straddling two chapters
being assigned by its start endpoint even though its end endpoint lies in a
different chapter range. -/
theorem block_chapter_endpoint_rule :
    (∀ (blocks : List (PyStr × PyStr)) (chapters : List ((PyStr × PyStr) × PyStr)),
      inferBlockChapters blocks chapters
        = blocks.map fun be =>
            (chapters.find? fun ch => _belongs_to_range be.1 ch.1.1 ch.1.2 ||
                _belongs_to_range be.2 ch.1.1 ch.1.2).map
              (fun ch => formatRange ch.1.1 ch.1.2)) ∧
    _belongs_to_range (pystr "C50") (pystr "C00") (pystr "D99") = true ∧
    inferBlockChapters [(pystr "B50", pystr "C50")]
      [((pystr "A00", pystr "B99"), pystr "T1"), ((pystr "C00", pystr "D99"), pystr "T2")]
      = [some (pystr "A00-B99")] :=
  ⟨inferBlockChapters_eq, by decide, by decide⟩

/-- C1: when the same (normalized) code occurs among the Structured-tagged
rows and among the Official-tagged rows, the consolidated output contains
the Structured-tagged row for that code (the first one, with all its
fields), and every output row with that code is Structured-tagged — the
Official-tagged duplicate is discarded regardless of field contents. -/
theorem consolidate_structured_wins (S O : List Row) (code : Option PyStr)
    (hS : ∀ r ∈ S, r.fonte = pystr "Estruturada")
    (hO : ∀ r ∈ O, r.fonte = pystr "DATASUS")
    (hs : ∃ r ∈ S, normalize_code r.cid_codigo = code)
    (_ho : ∃ r ∈ O, normalize_code r.cid_codigo = code) :
    (∃ r ∈ S, renorm r ∈ consolidate S O ∧ normalize_code r.cid_codigo = code) ∧
    ∀ r ∈ consolidate S O, r.cid_codigo = code → r.fonte = pystr "Estruturada" := by
  have hcons := consolidate_eq_of_tagged S O hS hO
  obtain ⟨r0, hr0S, hr0code⟩ := hs
  have hmem : renorm r0 ∈ S.map renorm := List.mem_map_of_mem _ hr0S
  have h1 : ((S.map renorm).find? (fun x => x.cid_codigo == code)).isSome :=
    List.find?_isSome.mpr ⟨renorm r0, hmem, beq_iff_eq.mpr hr0code⟩
  obtain ⟨w, hw⟩ := Option.isSome_iff_exists.mp h1
  have hwmem : w ∈ S.map renorm := List.mem_of_find?_eq_some hw
  have hwp := List.find?_some hw
  have hwcode : w.cid_codigo = code := beq_iff_eq.mp hwp
  have hLfind : ((S ++ O).map renorm).find? (fun x => x.cid_codigo == code) = some w := by
    rw [List.map_append, List.find?_append, hw]
    rfl
  have hwout : w ∈ consolidate S O := by
    rw [hcons]
    exact find_mem_dropDup _ [] code w hLfind (List.not_mem_nil _)
  obtain ⟨w0, hw0S, hw0eq⟩ := List.mem_map.mp hwmem
  constructor
  · refine ⟨w0, hw0S, ?_, ?_⟩
    · rw [hw0eq]
      exact hwout
    · show (renorm w0).cid_codigo = code
      rw [hw0eq]
      exact hwcode
  · intro r hr hrcode
    have h2 := (dropDup_mem_find _ [] r (hcons ▸ hr)).2
    rw [hrcode] at h2
    have hrw : r = w := by
      rw [h2] at hLfind
      exact Option.some.inj hLfind
    rw [hrw, ← hw0eq, renorm_fonte]
    exact hS w0 hw0S

/-- C3: after consolidation no two output rows share the same code — the
code column is a unique key of the consolidated table. -/
theorem consolidate_unique_codes (S O : List Row) :
    (consolidate S O).Pairwise (fun a b => a.cid_codigo ≠ b.cid_codigo) :=
  dropDup_pairwise _ _

/-- C9: every structured-expander row carries the tag `"Estruturada"` (the
source's value for the spec's "Structured"), every official-enricher row
carries `"DATASUS"` (the value for "Official"), and every row of the
consolidated pipeline output carries one of these two tags. -/
theorem source_tag_values (chapters : List ChapterRow) (blocks : List BlockRow)
    (categories : List CategoryRow) (subcats : List SubcatRow)
    (raw : List DatasusRaw) (cats : List CatFull) :
    (∀ r ∈ build_structured chapters blocks categories subcats,
      r.fonte = pystr "Estruturada") ∧
    (∀ r ∈ prepare_datasus raw cats, r.fonte = pystr "DATASUS") ∧
    (∀ r ∈ consolidate (build_structured chapters blocks categories subcats)
        (prepare_datasus raw cats),
      r.fonte = pystr "Estruturada" ∨ r.fonte = pystr "DATASUS") := by
  refine ⟨build_structured_fonte chapters blocks categories subcats,
    prepare_datasus_fonte raw cats, ?_⟩
  intro r hr
  have h1 : r ∈ List.insertionSort fonteDesc
      ((build_structured chapters blocks categories subcats ++
        prepare_datasus raw cats).map renorm) :=
    dropDup_subset _ _ r hr
  have h2 : r ∈ (build_structured chapters blocks categories subcats ++
      prepare_datasus raw cats).map renorm :=
    (List.perm_insertionSort _ _).mem_iff.mp h1
  obtain ⟨r0, hr0, rfl⟩ := List.mem_map.mp h2
  rw [renorm_fonte]
  rcases List.mem_append.mp hr0 with h3 | h3
  · exact Or.inl (build_structured_fonte chapters blocks categories subcats r0 h3)
  · exact Or.inr (prepare_datasus_fonte raw cats r0 h3)

/-- C10: consolidation deduplicates null codes like any other key — the
output has at most one row with a null code, and when some input row's code
normalizes to null, exactly one such row survives rather than all being
kept or all dropped. -/
theorem consolidate_null_collapsed (S O : List Row) :
    ((consolidate S O).countP (fun r => r.cid_codigo == none) ≤ 1) ∧
    ((∃ r ∈ S ++ O, normalize_code r.cid_codigo = none) →
      ∃ r ∈ consolidate S O, r.cid_codigo = none) := by
  constructor
  · apply countP_le_one_of_pairwise
    apply List.Pairwise.imp ?_ (dropDup_pairwise
      (List.insertionSort fonteDesc ((S ++ O).map renorm)) [])
    intro a b hne hpa
    have ha : a.cid_codigo = none := beq_iff_eq.mp hpa
    have hb : ¬ b.cid_codigo = none := fun hbn => hne (ha.trans hbn.symm)
    exact beq_eq_false_iff_ne.mpr hb
  · rintro ⟨r0, hr0, hcode⟩
    have hmem : renorm r0 ∈ List.insertionSort fonteDesc ((S ++ O).map renorm) := by
      rw [(List.perm_insertionSort _ _).mem_iff]
      exact List.mem_map_of_mem _ hr0
    have h1 : ((List.insertionSort fonteDesc ((S ++ O).map renorm)).find?
        (fun x => x.cid_codigo == none)).isSome :=
      List.find?_isSome.mpr ⟨renorm r0, hmem, beq_iff_eq.mpr hcode⟩
    obtain ⟨w, hw⟩ := Option.isSome_iff_exists.mp h1
    have hwp := List.find?_some hw
    exact ⟨w, find_mem_dropDup _ [] none w hw (List.not_mem_nil _), beq_iff_eq.mp hwp⟩

theorem fmt_test1 : _format_subcat (some (pystr "A001")) = some (pystr "A00.1") := by decide

theorem fmt_test2 : _format_subcat (some (pystr "A00 ")) = some (pystr "A00") := by decide

theorem rng_test : _belongs_to_range (pystr "B02") (pystr "A00") (pystr "B99") = true := by decide


/-- C8: ancestry attachment never drops rows — every subcategory row
survives the structured expander's left join (with null ancestry fields
when its `category_code` is unmatched), and every official
(code, description) row survives the enricher's left join (with null
ancestry fields when its root category matches no category code). -/
theorem left_join_never_drops :
    (∀ (chapters : List ChapterRow) (blocks : List BlockRow)
        (categories : List CategoryRow) (subcats : List SubcatRow),
      ∀ sc ∈ subcats,
        ∃ r ∈ build_structured chapters blocks categories subcats,
          r.cid_codigo = normalize_code sc.subcategory_code ∧
          r.titulo = sc.subcategory_title ∧
          ((∀ c0 ∈ categories, c0.category_code ≠ sc.category_code) →
            r.capitulo_codigo = none ∧ r.capitulo_titulo = none ∧
            r.bloco_codigo = none ∧ r.bloco_titulo = none)) ∧
    (∀ (raw : List DatasusRaw) (cats : List CatFull),
      ∀ rr ∈ raw,
        ∃ r ∈ prepare_datasus raw cats,
          r.cid_codigo = normalize_code rr.cid_codigo ∧
          r.descricao = rr.descricao ∧
          ((∀ c0 ∈ cats, normalize_code c0.category_code ≠
              extract_root_category (normalize_code rr.cid_codigo)) →
            r.capitulo_codigo = none ∧ r.capitulo_titulo = none ∧
            r.bloco_codigo = none ∧ r.bloco_titulo = none)) := by
  constructor
  · intro chapters blocks categories subcats sc hsc
    by_cases hemp : ((structuredCats chapters blocks categories).filter
        (fun c => c.category_code == sc.category_code)).isEmpty
    · refine ⟨structuredRow sc none, ?_, rfl, rfl, fun _ => ⟨rfl, rfl, rfl, rfl⟩⟩
      simp only [build_structured]
      refine List.mem_flatMap.mpr ⟨sc, hsc, ?_⟩
      rw [if_pos hemp]
      exact List.mem_singleton.mpr rfl
    · have hne : ((structuredCats chapters blocks categories).filter
          (fun c => c.category_code == sc.category_code)) ≠ [] := by
        intro h0
        exact hemp (by rw [h0]; rfl)
      obtain ⟨c, ms', hms⟩ := List.exists_cons_of_ne_nil hne
      refine ⟨structuredRow sc (some c), ?_, rfl, rfl, ?_⟩
      · simp only [build_structured]
        refine List.mem_flatMap.mpr ⟨sc, hsc, ?_⟩
        rw [if_neg hemp]
        exact List.mem_map_of_mem _ (hms ▸ List.mem_cons_self _ _)
      · intro hnone
        exfalso
        have hcmem : c ∈ (structuredCats chapters blocks categories).filter
            (fun c => c.category_code == sc.category_code) :=
          hms ▸ List.mem_cons_self _ _
        have hf := List.mem_filter.mp hcmem
        obtain ⟨c0, h0, hcode⟩ := structuredCats_codes chapters blocks categories c hf.1
        exact hnone c0 h0 (by rw [← hcode]; exact beq_iff_eq.mp hf.2)
  · intro raw cats rr hrr
    by_cases hemp : ((cats.map fun c =>
        { c with category_code := normalize_code c.category_code }).filter
        (fun c => c.category_code ==
          extract_root_category (normalize_code rr.cid_codigo))).isEmpty
    · refine ⟨datasusRow rr none, ?_, rfl, rfl, fun _ => ⟨rfl, rfl, rfl, rfl⟩⟩
      simp only [prepare_datasus]
      refine List.mem_flatMap.mpr ⟨rr, hrr, ?_⟩
      rw [if_pos hemp]
      exact List.mem_singleton.mpr rfl
    · have hne : ((cats.map fun c =>
          { c with category_code := normalize_code c.category_code }).filter
          (fun c => c.category_code ==
            extract_root_category (normalize_code rr.cid_codigo))) ≠ [] := by
        intro h0
        exact hemp (by rw [h0]; rfl)
      obtain ⟨c, ms', hms⟩ := List.exists_cons_of_ne_nil hne
      refine ⟨datasusRow rr (some c), ?_, rfl, rfl, ?_⟩
      · simp only [prepare_datasus]
        refine List.mem_flatMap.mpr ⟨rr, hrr, ?_⟩
        rw [if_neg hemp]
        exact List.mem_map_of_mem _ (hms ▸ List.mem_cons_self _ _)
      · intro hnone
        exfalso
        have hcmem : c ∈ (cats.map fun c =>
            { c with category_code := normalize_code c.category_code }).filter
            (fun c => c.category_code ==
              extract_root_category (normalize_code rr.cid_codigo)) :=
          hms ▸ List.mem_cons_self _ _
        have hf := List.mem_filter.mp hcmem
        obtain ⟨c0, h0, hc0⟩ := List.mem_map.mp hf.1
        refine hnone c0 h0 ?_
        rw [show normalize_code c0.category_code = c.category_code from by rw [← hc0]]
        exact beq_iff_eq.mp hf.2

end EtlCid10
namespace EtlCid10

/-- Witness for C1 at concrete inputs: the Structured row with code
`"A00"` survives and every surviving row with that code is
Structured-tagged, although the Official row's ancestry is populated and
the Structured row's is not. -/
theorem consolidate_structured_wins_witness :
    (∃ r ∈ [rowS], renorm r ∈ consolidate [rowS] [rowO] ∧
      normalize_code r.cid_codigo = some (pystr "A00")) ∧
    ∀ r ∈ consolidate [rowS] [rowO],
      r.cid_codigo = some (pystr "A00") → r.fonte = pystr "Estruturada" :=
  consolidate_structured_wins [rowS] [rowO] (some (pystr "A00"))
    (by decide) (by decide) (by decide) (by decide)

/-- Witness for C8 at concrete inputs with empty category tables: the
subcategory and the official row are both retained, with null ancestry. -/
theorem left_join_never_drops_witness :
    (∃ r ∈ build_structured [] [] [] [sc0],
      r.cid_codigo = normalize_code sc0.subcategory_code ∧
      r.titulo = sc0.subcategory_title ∧
      ((∀ c0 ∈ ([] : List CategoryRow), c0.category_code ≠ sc0.category_code) →
        r.capitulo_codigo = none ∧ r.capitulo_titulo = none ∧
        r.bloco_codigo = none ∧ r.bloco_titulo = none)) ∧
    (∃ r ∈ prepare_datasus [raw0] [],
      r.cid_codigo = normalize_code raw0.cid_codigo ∧
      r.descricao = raw0.descricao ∧
      ((∀ c0 ∈ ([] : List CatFull), normalize_code c0.category_code ≠
          extract_root_category (normalize_code raw0.cid_codigo)) →
        r.capitulo_codigo = none ∧ r.capitulo_titulo = none ∧
        r.bloco_codigo = none ∧ r.bloco_titulo = none)) :=
  ⟨left_join_never_drops.1 [] [] [] [sc0] sc0 (List.mem_singleton.mpr rfl),
   left_join_never_drops.2 [raw0] [] raw0 (List.mem_singleton.mpr rfl)⟩

/-- Witness for C9 at concrete inputs: a concrete row of the consolidated
output carries one of the two source tags. -/
theorem source_tag_values_witness :
    (renorm (structuredRow sc0 none)).fonte = pystr "Estruturada" ∨
    (renorm (structuredRow sc0 none)).fonte = pystr "DATASUS" :=
  (source_tag_values [] [] [] [sc0] [raw0] []).2.2
    (renorm (structuredRow sc0 none)) (by decide)

/-- Witness for C10 at a concrete input containing a null-code row: at most
one null-code row survives, and one does survive. -/
theorem consolidate_null_collapsed_witness :
    ((consolidate [rowNull] [rowO]).countP (fun r => r.cid_codigo == none) ≤ 1) ∧
    ∃ r ∈ consolidate [rowNull] [rowO], r.cid_codigo = none :=
  ⟨(consolidate_null_collapsed [rowNull] [rowO]).1,
   (consolidate_null_collapsed [rowNull] [rowO]).2 ⟨rowNull, by decide, by decide⟩⟩

end EtlCid10
